import Mathlib

/-!
Verification of the training/validation notebook
`intro-to-pytorch/Part 5 - Inference and Validation (Exercises).ipynb`.

The notebook's procedural core is the epoch loop of cell-17: for each of
30 epochs it runs the training batches (accumulating `running_loss`),
switches the model to eval mode, runs the validation batches (accumulating
`test_loss` and per-batch mean `accuracy`), appends
`running_loss/len(trainloader)` and `test_loss/len(testloader)` to the
history lists, prints the report (which divides `accuracy` by
`len(testloader)`), and finally calls `model.train()`.

We embed this loop as a step function over an explicit state.  Scalar
losses and accuracies are modelled as rationals (the code's float
arithmetic, taken exactly); Python's `/` is modelled as a fallible
division that raises `ZeroDivisionError` on a zero denominator, and an
exception escaping a validation batch is modelled by letting each batch
carry an `Except` value.  The network forward pass (cells 3 and 16) is
embedded separately over the reals further down.
-/

/-- The model's mode flag, toggled by `model.train()` / `model.eval()`. -/
inductive Mode where
  | train : Mode
  | eval : Mode
deriving DecidableEq, Repr

/-- Errors that can abort an epoch.  `valError` models an exception raised
inside the validation loop; `zeroDivision` models Python's
`ZeroDivisionError`; `configError` is the configuration-error report the
spec asks for (the code never produces it). -/
inductive PyErr where
  | valError : PyErr
  | zeroDivision : PyErr
  | configError : PyErr
deriving DecidableEq, Repr

/-- The mutable state threaded through the epoch loop of cell-17:
the model's mode flag and the two history lists. -/
structure LoopState where
  mode : Mode
  train_losses : List ℚ
  test_losses : List ℚ
deriving DecidableEq, Repr

/-- The data one epoch consumes: the training-batch losses
(`train_loss.item()` for each batch of `trainloader`) and, for each batch
of `testloader`, either the pair (batch loss, batch mean accuracy) or an
exception raised while processing that batch. -/
structure EpochData where
  trainBatchLosses : List ℚ
  valBatches : List (Except Unit (ℚ × ℚ))
deriving Repr

/-- Python division: raises `ZeroDivisionError` on a zero denominator. -/
def pyDiv (a b : ℚ) : Except PyErr ℚ :=
  if b = 0 then Except.error PyErr.zeroDivision else Except.ok (a / b)

/-- The validation loop body of cell-17: iterate over the validation
batches, accumulating `test_loss` and `accuracy`; an exception from any
batch propagates at once. -/
def valAccum : List (Except Unit (ℚ × ℚ)) → ℚ → ℚ → Except Unit (ℚ × ℚ)
  | [], tl, acc => Except.ok (tl, acc)
  | b :: bs, tl, acc =>
    match b with
    | Except.error e => Except.error e
    | Except.ok (l, a) => valAccum bs (tl + l) (acc + a)

/-- One iteration of the epoch loop of cell-17.  Training batches fold
into `running_loss`; `model.eval()` sets the mode; the validation loop
runs; the two averages are appended; the printed report divides
`accuracy` by the batch count; `model.train()` restores the mode last.
An error result carries the state at the moment the exception escaped. -/
def runEpoch (d : EpochData) (st : LoopState) : Except (PyErr × LoopState) LoopState :=
  match valAccum d.valBatches 0 0 with
  | Except.error _ =>
    Except.error (PyErr.valError, { st with mode := Mode.eval })
  | Except.ok (test_loss, accuracy) =>
    match pyDiv (d.trainBatchLosses.foldl (fun acc l => acc + l) 0) d.trainBatchLosses.length with
    | Except.error e => Except.error (e, { st with mode := Mode.eval })
    | Except.ok tAvg =>
      match pyDiv test_loss d.valBatches.length with
      | Except.error e =>
        Except.error (e, { st with mode := Mode.eval,
                                   train_losses := st.train_losses ++ [tAvg] })
      | Except.ok vAvg =>
        match pyDiv accuracy d.valBatches.length with
        | Except.error e =>
          Except.error (e, { st with mode := Mode.eval,
                                     train_losses := st.train_losses ++ [tAvg],
                                     test_losses := st.test_losses ++ [vAvg] })
        | Except.ok _accAvg =>
          Except.ok { st with mode := Mode.train,
                              train_losses := st.train_losses ++ [tAvg],
                              test_losses := st.test_losses ++ [vAvg] }

/-- The loop `for e in range(epochs)` starting at epoch index `s` for `n` more
epochs; an exception escaping an epoch aborts the whole loop. -/
def runEpochs (data : ℕ → EpochData) : ℕ → ℕ → LoopState → Except (PyErr × LoopState) LoopState
  | _, 0, st => Except.ok st
  | s, Nat.succ k, st =>
    match runEpoch (data s) st with
    | Except.error e => Except.error e
    | Except.ok st' => runEpochs data (s + 1) k st'

/-- Cell-17 sets `epochs = 30`. -/
def epochs : ℕ := 30

/-- The state before the loop: fresh model (train mode is the module
default) and empty history lists `train_losses, test_losses = [], []`. -/
def initState : LoopState :=
  { mode := Mode.train, train_losses := [], test_losses := [] }

/-- The whole training/validation driver of cell-17. -/
def runTraining (data : ℕ → EpochData) : Except (PyErr × LoopState) LoopState :=
  runEpochs data 0 epochs initState

/-! ### Accuracy computation (cells 7–11 and the validation loop) -/

/-- Index component of `ps.topk(1, dim=1)` for one row: the index of the
maximum entry (ties resolved to the first maximal index, the
implementation-defined choice the spec documents). -/
def argmaxAux (best : ℚ) (bestIdx i : ℕ) : List ℚ → ℕ
  | [] => bestIdx
  | x :: xs => if best < x then argmaxAux x i (i + 1) xs else argmaxAux best bestIdx (i + 1) xs

/-- Arg-max of a probability row. -/
def argmaxIdx : List ℚ → ℕ
  | [] => 0
  | x :: xs => argmaxAux x 0 1 xs

/-- Cell-17's `equals = top_class == labels.view(*top_class.shape)`: elementwise
equality of predicted classes and labels. -/
def batchEquals (preds labels : List ℕ) : List Bool :=
  List.zipWith (fun p l => decide (p = l)) preds labels

/-- Cell-17's `torch.mean(equals.type(torch.FloatTensor))`: the number of `True`
entries over the number of entries. -/
def batchAccOfPreds (preds labels : List ℕ) : ℚ :=
  ((batchEquals preds labels).countP id : ℚ) / ((batchEquals preds labels).length : ℚ)

/-- Per-batch accuracy straight from the class probabilities: arg-max each
row, compare with the labels, take the mean. -/
def batchAccFromPs (ps : List (List ℚ)) (labels : List ℕ) : ℚ :=
  batchAccOfPreds (ps.map argmaxIdx) labels

/-- Number of samples of a (predictions, labels) batch whose predicted
class equals the true label. -/
def correctCount (preds labels : List ℕ) : ℕ :=
  (preds.zip labels).countP (fun pl => decide (pl.1 = pl.2))

/-- The epoch accuracy cell-17 reports: sum the per-batch mean accuracies
over the validation batches, divide by the number of batches. -/
def reportedAcc (split : List (List ℕ × List ℕ)) : ℚ :=
  (split.foldl (fun acc b => acc + batchAccOfPreds b.1 b.2) 0) / (split.length : ℚ)

/-- The overall fraction of correctly classified validation samples:
total correct samples over total samples. -/
def overallAcc (split : List (List ℕ × List ℕ)) : ℚ :=
  ((split.map (fun b => correctCount b.1 b.2)).sum : ℚ) /
    ((split.map (fun b => b.1.length)).sum : ℚ)

/-! ### The network forward pass (cells 3 and 16), over the reals -/

/-- The parameters of `Classifier` (cell-3): four affine layers
784 → 256 → 128 → 64 → 10.  `DropoutClassifier` (cell-16) inherits these
unchanged. -/
structure ClassifierParams where
  w1 : Fin 256 → Fin 784 → ℝ
  b1 : Fin 256 → ℝ
  w2 : Fin 128 → Fin 256 → ℝ
  b2 : Fin 128 → ℝ
  w3 : Fin 64 → Fin 128 → ℝ
  b3 : Fin 64 → ℝ
  w4 : Fin 10 → Fin 64 → ℝ
  b4 : Fin 10 → ℝ

/-- Affine transform of one sample (`nn.Linear`). -/
noncomputable def linear {m n : ℕ} (w : Fin m → Fin n → ℝ) (b : Fin m → ℝ)
    (x : Fin n → ℝ) : Fin m → ℝ :=
  fun i => (∑ j, w i j * x j) + b i

/-- Rectified linear unit, `F.relu`. -/
noncomputable def relu (x : ℝ) : ℝ := max x 0

/-- Log-softmax, `F.log_softmax(x, dim=1)`, on one sample's class scores. -/
noncomputable def logSoftmax {n : ℕ} (x : Fin n → ℝ) : Fin n → ℝ :=
  fun i => x i - Real.log (∑ j, Real.exp (x j))

/-- Forward pass of `Classifier` (cell-3) on one flattened sample. -/
noncomputable def Classifier.forward (p : ClassifierParams) (x : Fin 784 → ℝ) : Fin 10 → ℝ :=
  let h1 := fun i => relu (linear p.w1 p.b1 x i)
  let h2 := fun i => relu (linear p.w2 p.b2 h1 i)
  let h3 := fun i => relu (linear p.w3 p.b3 h2 i)
  logSoftmax (linear p.w4 p.b4 h3)

/-- Dropout, `nn.Dropout(p=0.2)`, applied to a layer's activations.  The random
draw is made explicit as a `mask` (which units are zeroed); in train mode
surviving units are rescaled by `1/(1-p)`, and in eval mode the module
applies as the identity. -/
noncomputable def dropout {n : ℕ} (mode : Mode) (p : ℝ) (mask : Fin n → Bool)
    (x : Fin n → ℝ) : Fin n → ℝ :=
  match mode with
  | Mode.eval => x
  | Mode.train => fun i => if mask i then 0 else x i / (1 - p)

/-- The dropout masks drawn for one forward pass of `DropoutClassifier`
(one per hidden layer). -/
structure DropoutMasks where
  m1 : Fin 256 → Bool
  m2 : Fin 128 → Bool
  m3 : Fin 64 → Bool

/-- Forward pass of `DropoutClassifier` (cell-16): the same layers as
`Classifier` with `self.dropout` (p = 0.2) after each hidden ReLU. -/
noncomputable def DropoutClassifier.forward (mode : Mode) (masks : DropoutMasks)
    (p : ClassifierParams) (x : Fin 784 → ℝ) : Fin 10 → ℝ :=
  let h1 := dropout mode (2/10) masks.m1 (fun i => relu (linear p.w1 p.b1 x i))
  let h2 := dropout mode (2/10) masks.m2 (fun i => relu (linear p.w2 p.b2 h1 i))
  let h3 := dropout mode (2/10) masks.m3 (fun i => relu (linear p.w3 p.b3 h2 i))
  logSoftmax (linear p.w4 p.b4 h3)

/-- The single-sample inference path (cell-19): flatten the image, run
`model.forward` in eval mode under `torch.no_grad()`, and exponentiate
the log-probabilities (`ps = torch.exp(output)`).  The masks stand for
the RNG state at the time of the call; eval mode is expected to ignore
them. -/
noncomputable def inferenceProbs (masks : DropoutMasks) (p : ClassifierParams)
    (img : Fin 784 → ℝ) : Fin 10 → ℝ :=
  fun i => Real.exp (DropoutClassifier.forward Mode.eval masks p img i)

/-! ### The loss function -/

/-- Modelled from the spec: the repository only calls `criterion =
nn.NLLLoss()`, whose implementation is framework code not present in the
repository.  Section 4.2 of the spec gives its contract: return the
negative mean log-probability assigned to each sample's true class, and
fail if a label index falls outside `[0, numClasses)`.  `pick` is the
per-sample checked lookup of the true class's log-probability. -/
def pick (row : List ℚ) (label : ℤ) : Except Unit ℚ :=
  if h : 0 ≤ label ∧ label.toNat < row.length then
    Except.ok (row.get ⟨label.toNat, h.2⟩)
  else Except.error ()

/-- Modelled from the spec: sum of the per-sample true-class
log-probabilities, failing on the first out-of-range label. -/
def nllSum : List (List ℚ × ℤ) → Except Unit ℚ
  | [] => Except.ok 0
  | (row, l) :: rest =>
    match pick row l with
    | Except.error e => Except.error e
    | Except.ok v =>
      match nllSum rest with
      | Except.error e => Except.error e
      | Except.ok s => Except.ok (v + s)

/-- Modelled from the spec: `nn.NLLLoss()` with the default mean
reduction on a batch of per-sample log-probability rows and integer
labels. -/
def nllLoss (logps : List (List ℚ)) (labels : List ℤ) : Except Unit ℚ :=
  match nllSum (logps.zip labels) with
  | Except.error e => Except.error e
  | Except.ok s => Except.ok (-(s / (logps.length : ℚ)))

/-- Mean of the per-batch training losses, `running_loss/len(trainloader)`. -/
def trainAvg (tb : List ℚ) : ℚ := tb.sum / (tb.length : ℚ)

/-- Mean of the per-batch validation losses, `test_loss/len(testloader)`. -/
def testAvg (l : List (ℚ × ℚ)) : ℚ := (l.map Prod.fst).sum / (l.length : ℚ)

/-! ### Helper lemmas -/

lemma foldl_add_id (l : List ℚ) : ∀ a : ℚ, l.foldl (fun acc x => acc + x) a = a + l.sum := by
  induction l with
  | nil => intro a; simp
  | cons x xs ih => intro a; simp [ih, add_assoc]

lemma valAccum_map_ok (l : List (ℚ × ℚ)) : ∀ tl acc : ℚ,
    valAccum (l.map Except.ok) tl acc =
      Except.ok (tl + (l.map Prod.fst).sum, acc + (l.map Prod.snd).sum) := by
  induction l with
  | nil => intro tl acc; simp [valAccum]
  | cons p rest ih =>
    intro tl acc
    cases p with
    | mk a b => simp [valAccum, ih, add_assoc]

lemma runEpoch_ok (tb : List ℚ) (l : List (ℚ × ℚ)) (st : LoopState)
    (htb : tb ≠ []) (hl : l ≠ []) :
    runEpoch ⟨tb, l.map Except.ok⟩ st =
      Except.ok { mode := Mode.train,
                  train_losses := st.train_losses ++ [trainAvg tb],
                  test_losses := st.test_losses ++ [testAvg l] } := by
  have htb0 : tb.length ≠ 0 := fun h => htb (List.length_eq_zero.mp h)
  have hl0 : l.length ≠ 0 := fun h => hl (List.length_eq_zero.mp h)
  have htb' : ((tb.length : ℕ) : ℚ) ≠ 0 := Nat.cast_ne_zero.mpr htb0
  have hl' : ((l.length : ℕ) : ℚ) ≠ 0 := Nat.cast_ne_zero.mpr hl0
  simp [runEpoch, valAccum_map_ok, pyDiv, foldl_add_id, htb', hl', trainAvg, testAvg]

lemma runEpoch_ok_mode (d : EpochData) (st st' : LoopState)
    (h : runEpoch d st = Except.ok st') : st'.mode = Mode.train := by
  unfold runEpoch at h
  repeat' split at h
  all_goals cases h
  all_goals rfl

lemma runEpoch_error_mode (d : EpochData) (st : LoopState) (p : PyErr) (st' : LoopState)
    (h : runEpoch d st = Except.error (p, st')) : st'.mode = Mode.eval := by
  unfold runEpoch at h
  repeat' split at h
  all_goals cases h
  all_goals rfl

/-! ### C1: mode restoration after validation -/

/-- C1 counterexample.  The claim says the mode set to eval is restored to
train on every exit path of the validation block, including when the
validation pass raises an error.  In cell-17 `model.train()` is a plain
statement after the validation block, not a `finally` handler: on the run
below, one validation batch raises, the exception escapes the epoch, and
the model is left in eval mode. -/
theorem C1_eval_mode_leak :
    runEpoch ⟨[1], [Except.error ()]⟩ initState =
      Except.error (PyErr.valError,
        { mode := Mode.eval, train_losses := [], test_losses := [] }) ∧
    Mode.eval ≠ Mode.train :=
  ⟨rfl, by decide⟩

/-- C1 amended: when the validation phase of an epoch completes without
error, the mode is restored to train before the next epoch; when it raises,
the exception aborts the epoch loop at once (so no later training batch
runs at all) and the mode is left at eval. -/
theorem C1_mode_after_validation (d : EpochData) (st st' : LoopState) :
    (runEpoch d st = Except.ok st' → st'.mode = Mode.train) ∧
    (∀ p, runEpoch d st = Except.error (p, st') →
      st'.mode = Mode.eval ∧
      ∀ (data : ℕ → EpochData) (s k : ℕ), data s = d →
        runEpochs data s (k + 1) st = Except.error (p, st')) := by
  refine ⟨fun h => runEpoch_ok_mode d st st' h, fun p h => ⟨runEpoch_error_mode d st p st' h, ?_⟩⟩
  intro data s k hd
  simp [runEpochs, hd, h]

/-- Witness for `C1_mode_after_validation` at a concrete error-free epoch. -/
theorem C1_mode_after_validation_witness :
    ({ mode := Mode.train, train_losses := [1], test_losses := [0] } : LoopState).mode =
      Mode.train :=
  (C1_mode_after_validation ⟨[1], [Except.ok (0, 1)]⟩ initState
    { mode := Mode.train, train_losses := [1], test_losses := [0] }).1 (by
      show runEpoch ⟨[1], [Except.ok (0, 1)]⟩ initState = _
      norm_num [runEpoch, valAccum, pyDiv, initState])

/-! ### C2: behaviour on an empty data split -/

/-- C2 counterexample.  The claim says the averaging over an empty split is
explicitly guarded and reported as a configuration error.  With an empty
training split, `running_loss/len(trainloader)` is the unguarded division
`0/0`: the epoch ends in `ZeroDivisionError`, not in any configuration
error report. -/
theorem C2_divzero_unguarded :
    runEpoch ⟨[], [Except.ok (1, 1)]⟩ initState =
      Except.error (PyErr.zeroDivision,
        { mode := Mode.eval, train_losses := [], test_losses := [] }) ∧
    PyErr.zeroDivision ≠ PyErr.configError :=
  ⟨rfl, by decide⟩

/-- C2 amended: the averaging step has no guard.  When the training split
is empty, or the validation split is empty, the epoch-report division
raises `ZeroDivisionError` and the epoch aborts (no NaN is produced, since
the accumulators are exact zeros and the division raises instead). -/
theorem C2_empty_split_raises (st : LoopState) :
    (∀ l : List (ℚ × ℚ), runEpoch ⟨[], l.map Except.ok⟩ st =
      Except.error (PyErr.zeroDivision, { st with mode := Mode.eval })) ∧
    (∀ tb : List ℚ, tb ≠ [] → runEpoch ⟨tb, []⟩ st =
      Except.error (PyErr.zeroDivision,
        { st with mode := Mode.eval,
                  train_losses := st.train_losses ++ [trainAvg tb] })) := by
  constructor
  · intro l
    simp [runEpoch, valAccum_map_ok, pyDiv]
  · intro tb htb
    have htb0 : tb.length ≠ 0 := fun h => htb (List.length_eq_zero.mp h)
    have htb' : ((tb.length : ℕ) : ℚ) ≠ 0 := Nat.cast_ne_zero.mpr htb0
    simp [runEpoch, valAccum, pyDiv, htb', foldl_add_id, trainAvg]

/-- Witness for `C2_empty_split_raises`: an epoch with one training batch
and an empty validation split. -/
theorem C2_empty_split_raises_witness :
    runEpoch ⟨[1], []⟩ initState =
      Except.error (PyErr.zeroDivision,
        { mode := Mode.eval, train_losses := [1], test_losses := [] }) := by
  have h := (C2_empty_split_raises initState).2 [1] (by decide)
  simpa [initState, trainAvg] using h

/-! ### C4: per-batch accuracy -/

lemma batchEquals_countP (preds labels : List ℕ) :
    (batchEquals preds labels).countP id = correctCount preds labels := by
  induction preds generalizing labels with
  | nil => simp [batchEquals, correctCount]
  | cons p ps ih =>
    cases labels with
    | nil => simp [batchEquals, correctCount]
    | cons l ls =>
      simp [batchEquals, correctCount, List.countP_cons] at ih ⊢
      rw [ih]

lemma batchEquals_length (preds labels : List ℕ) (h : labels.length = preds.length) :
    (batchEquals preds labels).length = preds.length := by
  simp [batchEquals, h]

lemma batchAcc_eq (preds labels : List ℕ) (h : labels.length = preds.length) :
    batchAccOfPreds preds labels = (correctCount preds labels : ℚ) / (preds.length : ℚ) := by
  unfold batchAccOfPreds
  rw [batchEquals_countP, batchEquals_length _ _ h]

/-- C4: the per-batch accuracy — mean of the `equals` byte tensor built
from `ps.topk(1)` and the labels — equals the fraction of samples whose
arg-max predicted class is strictly equal to the true label; and for
predicted classes `[9,9,0,0]` against labels `[9,0,0,0]` it is `0.75`. -/
theorem C4_batch_accuracy :
    (∀ (ps : List (List ℚ)) (labels : List ℕ), labels.length = ps.length →
      batchAccFromPs ps labels =
        (correctCount (ps.map argmaxIdx) labels : ℚ) / (ps.length : ℚ)) ∧
    batchAccOfPreds [9, 9, 0, 0] [9, 0, 0, 0] = 3 / 4 := by
  constructor
  · intro ps labels h
    unfold batchAccFromPs
    rw [batchAcc_eq _ _ (by simpa using h)]
    simp
  · norm_num [batchAccOfPreds, batchEquals, List.countP_cons]

/-- Witness for `C4_batch_accuracy` on a concrete two-sample batch. -/
theorem C4_batch_accuracy_witness :
    batchAccFromPs [[0, 1], [1, 0]] [1, 1] =
      (correctCount ([[0, 1], [1, 0]].map argmaxIdx) [1, 1] : ℚ) / 2 := by
  have h := C4_batch_accuracy.1 [[0, 1], [1, 0]] [1, 1] rfl
  simpa using h

/-! ### C5: mean training loss -/

/-- C5: the reported mean training loss of an epoch is the sum of the
per-batch training losses divided by the number of training batches; a
2-batch epoch with losses `[0.4, 0.6]` reports `0.500`. -/
theorem C5_mean_train_loss :
    (∀ (tb : List ℚ) (l : List (ℚ × ℚ)) (st : LoopState), tb ≠ [] → l ≠ [] →
      ∃ st', runEpoch ⟨tb, l.map Except.ok⟩ st = Except.ok st' ∧
        st'.train_losses = st.train_losses ++ [tb.sum / (tb.length : ℚ)]) ∧
    (∃ st', runEpoch ⟨[4/10, 6/10], [Except.ok (0, 1)]⟩ initState = Except.ok st' ∧
      st'.train_losses = [500/1000]) := by
  constructor
  · intro tb l st htb hl
    exact ⟨_, runEpoch_ok tb l st htb hl, rfl⟩
  · have h := runEpoch_ok [4/10, 6/10] [(0, 1)] initState (by simp) (by simp)
    refine ⟨_, h, ?_⟩
    norm_num [initState, trainAvg]

/-- Witness for `C5_mean_train_loss` at a concrete one-batch epoch. -/
theorem C5_mean_train_loss_witness :
    ∃ st', runEpoch ⟨[1], [(0, 0)].map Except.ok⟩ initState = Except.ok st' ∧
      st'.train_losses = initState.train_losses ++ [List.sum [1] / ((List.length [(1 : ℚ)] : ℕ) : ℚ)] :=
  C5_mean_train_loss.1 [1] [(0, 0)] initState (by simp) (by simp)

/-! ### C3: mean of per-batch accuracies vs overall fraction -/

lemma sum_map_const_rat {α : Type*} (l : List α) (c : ℚ) :
    (l.map fun _ => c).sum = l.length * c := by
  induction l with
  | nil => simp
  | cons x xs ih =>
    rw [List.map_cons, List.sum_cons, ih, List.length_cons]
    push_cast
    ring

lemma foldl_add_map {α : Type*} (f : α → ℚ) (l : List α) : ∀ a : ℚ,
    l.foldl (fun acc b => acc + f b) a = a + (l.map f).sum := by
  induction l with
  | nil => intro a; simp
  | cons x xs ih => intro a; simp [ih, add_assoc]

lemma sum_map_div {α : Type*} (l : List α) (f : α → ℚ) (k : ℚ) :
    (l.map fun b => f b / k).sum = (l.map f).sum / k := by
  induction l with
  | nil => simp
  | cons x xs ih => simp [ih, add_div]

/-- C3: the epoch accuracy cell-17 reports is the unweighted mean of the
per-batch mean accuracies; it agrees with the overall fraction of
correctly classified samples whenever all validation batches have equal
size, and differs on a split whose last batch is incomplete. -/
theorem C3_accuracy_aggregation :
    (∀ (split : List (List ℕ × List ℕ)) (k : ℕ),
      (∀ b ∈ split, b.1.length = k ∧ b.2.length = k) →
      reportedAcc split = overallAcc split) ∧
    reportedAcc [([0, 1], [0, 2]), ([3], [3])] ≠ overallAcc [([0, 1], [0, 2]), ([3], [3])] := by
  constructor
  · intro split k hsz
    have hmap : split.map (fun b => batchAccOfPreds b.1 b.2)
        = split.map (fun b => (correctCount b.1 b.2 : ℚ) / (k : ℚ)) := by
      apply List.map_congr_left
      intro b hb
      rw [batchAcc_eq b.1 b.2 (by rw [(hsz b hb).1, (hsz b hb).2]), (hsz b hb).1]
    have hden : (split.map (fun b => ((b.1.length : ℕ) : ℚ))).sum = (split.length : ℚ) * (k : ℚ) := by
      have h1 : split.map (fun b => ((b.1.length : ℕ) : ℚ)) = split.map (fun _ => (k : ℚ)) :=
        List.map_congr_left (fun b hb => by rw [(hsz b hb).1])
      rw [h1, sum_map_const_rat]
    unfold reportedAcc overallAcc
    rw [foldl_add_map, zero_add, hmap, sum_map_div, div_div, hden]
    push_cast [List.map_map, Function.comp_def]
    ring_nf
  · norm_num [reportedAcc, overallAcc, batchAccOfPreds, batchEquals, correctCount,
      List.countP_cons]

/-- Witness for `C3_accuracy_aggregation` on an equal-size two-batch
split. -/
theorem C3_accuracy_aggregation_witness :
    reportedAcc [([1, 2], [1, 3]), ([4, 5], [4, 5])] =
      overallAcc [([1, 2], [1, 3]), ([4, 5], [4, 5])] :=
  C3_accuracy_aggregation.1 [([1, 2], [1, 3]), ([4, 5], [4, 5])] 2 (by decide)

/-! ### C9: termination and history growth of the driver -/

lemma runEpochs_ok (tb : ℕ → List ℚ) (vl : ℕ → List (ℚ × ℚ)) :
    ∀ (n s : ℕ) (st : LoopState),
      (∀ i, s ≤ i → i < s + n → tb i ≠ [] ∧ vl i ≠ []) →
      runEpochs (fun e => ⟨tb e, (vl e).map Except.ok⟩) s n st =
        Except.ok { mode := if n = 0 then st.mode else Mode.train,
                    train_losses :=
                      st.train_losses ++ (List.range' s n).map (fun e => trainAvg (tb e)),
                    test_losses :=
                      st.test_losses ++ (List.range' s n).map (fun e => testAvg (vl e)) } := by
  intro n
  induction n with
  | zero => intro s st _; simp [runEpochs, List.range']
  | succ k ih =>
    intro s st h
    have h0 := h s (le_refl s) (by omega)
    have hstep := runEpoch_ok (tb s) (vl s) st h0.1 h0.2
    have hrec := ih (s + 1)
      { mode := Mode.train,
        train_losses := st.train_losses ++ [trainAvg (tb s)],
        test_losses := st.test_losses ++ [testAvg (vl s)] }
      (fun i h1 h2 => h i (by omega) (by omega))
    simp only [runEpochs, hstep, hrec]
    simp [List.range', List.append_assoc]

/-- C9: on well-formed data (every epoch has at least one training batch
and one validation batch and no validation exception) the driver
terminates after exactly the 30 configured epochs, each history list
gains exactly one entry per epoch in epoch order, recorded entries are
never changed by later epochs, and at termination `train_losses` and
`test_losses` each hold exactly 30 entries. -/
theorem C9_driver_termination (tb : ℕ → List ℚ) (vl : ℕ → List (ℚ × ℚ))
    (h : ∀ e, e < epochs → tb e ≠ [] ∧ vl e ≠ []) :
    ∃ st, runTraining (fun e => ⟨tb e, (vl e).map Except.ok⟩) = Except.ok st ∧
      st.mode = Mode.train ∧
      st.train_losses = (List.range epochs).map (fun e => trainAvg (tb e)) ∧
      st.test_losses = (List.range epochs).map (fun e => testAvg (vl e)) ∧
      st.train_losses.length = 30 ∧ st.test_losses.length = 30 ∧
      ∀ n, n ≤ epochs →
        ∃ stn, runEpochs (fun e => ⟨tb e, (vl e).map Except.ok⟩) 0 n initState = Except.ok stn ∧
          stn.train_losses = (List.range n).map (fun e => trainAvg (tb e)) ∧
          stn.test_losses = (List.range n).map (fun e => testAvg (vl e)) := by
  have key : ∀ n, n ≤ epochs →
      runEpochs (fun e => ⟨tb e, (vl e).map Except.ok⟩) 0 n initState =
        Except.ok { mode := if n = 0 then Mode.train else Mode.train,
                    train_losses := (List.range n).map (fun e => trainAvg (tb e)),
                    test_losses := (List.range n).map (fun e => testAvg (vl e)) } := by
    intro n hn
    have hk := runEpochs_ok tb vl n 0 initState (fun i _ h2 => h i (by omega))
    rw [hk]
    simp [initState, List.range_eq_range']
  refine ⟨_, key epochs (le_refl _), by simp, rfl, rfl, by simp [epochs], by simp [epochs], ?_⟩
  intro n hn
  exact ⟨_, key n hn, rfl, rfl⟩

/-- Witness for `C9_driver_termination` on constant synthetic data. -/
theorem C9_driver_termination_witness :
    ∃ st, runTraining (fun _ => ⟨[1], [Except.ok (0, 1)]⟩) = Except.ok st ∧
      st.train_losses.length = 30 := by
  obtain ⟨st, h1, _, _, _, h5, _, _⟩ :=
    C9_driver_termination (fun _ => [1]) (fun _ => [(0, 1)]) (fun e _ => ⟨by simp, by simp⟩)
  exact ⟨st, h1, h5⟩

/-! ### C6, C7, C10: forward pass, dropout, inference -/

lemma sum_exp_logSoftmax {n : ℕ} (hn : 0 < n) (z : Fin n → ℝ) :
    ∑ i, Real.exp (logSoftmax z i) = 1 := by
  haveI : Nonempty (Fin n) := Fin.pos_iff_nonempty.mp hn
  have hS : 0 < ∑ j, Real.exp (z j) :=
    Finset.sum_pos (fun j _ => Real.exp_pos _) Finset.univ_nonempty
  simp only [logSoftmax, Real.exp_sub, Real.exp_log hS]
  rw [← Finset.sum_div, div_self (ne_of_gt hS)]

/-- C6: exponentiating the model's log-softmax output gives, per sample,
a class distribution with non-negative entries summing to 1 — exactly, in
the exact-arithmetic model, hence within the 1e-5 tolerance — for every
input and every parameter setting. -/
theorem C6_probability_normalisation (p : ClassifierParams) (x : Fin 784 → ℝ) :
    (∀ i, 0 ≤ Real.exp (Classifier.forward p x i)) ∧
    (∑ i, Real.exp (Classifier.forward p x i)) = 1 ∧
    |(∑ i, Real.exp (Classifier.forward p x i)) - 1| ≤ 1 / 100000 := by
  have hsum : (∑ i, Real.exp (Classifier.forward p x i)) = 1 := by
    unfold Classifier.forward
    exact sum_exp_logSoftmax (by norm_num) _
  exact ⟨fun i => (Real.exp_pos _).le, hsum, by rw [hsum]; norm_num⟩

/-- C7: in eval mode the dropout step is the identity, so
`DropoutClassifier.forward` in eval mode computes exactly the same output
as the dropout-free `Classifier.forward`, for every mask, parameter
setting and input. -/
theorem C7_eval_forward_equivalence :
    (∀ (n : ℕ) (p : ℝ) (mask : Fin n → Bool) (x : Fin n → ℝ),
      dropout Mode.eval p mask x = x) ∧
    (∀ (masks : DropoutMasks) (p : ClassifierParams) (x : Fin 784 → ℝ),
      DropoutClassifier.forward Mode.eval masks p x = Classifier.forward p x) :=
  ⟨fun _ _ _ _ => rfl, fun _ _ _ => rfl⟩

/-- C10: the single-sample inference path in eval mode does not depend on
the dropout randomness, so two runs on the same input with the same
parameters — even with the RNG state advanced between them — produce
identical probability outputs. -/
theorem C10_inference_idempotent (m1 m2 : DropoutMasks) (p : ClassifierParams)
    (img : Fin 784 → ℝ) :
    inferenceProbs m1 p img = inferenceProbs m2 p img :=
  rfl

/-! ### C8: the loss-function contract -/

lemma nllSum_ok : ∀ (pairs : List (List ℚ × ℤ)),
    (∀ q ∈ pairs, 0 ≤ q.2 ∧ q.2.toNat < q.1.length) →
    nllSum pairs = Except.ok ((pairs.map (fun rl => rl.1.getD rl.2.toNat 0)).sum) := by
  intro pairs
  induction pairs with
  | nil => intro _; simp [nllSum]
  | cons q rest ih =>
    intro h
    obtain ⟨row, l⟩ := q
    have hq := h (row, l) (List.mem_cons_self _ _)
    have hpick : pick row l = Except.ok (row.get ⟨l.toNat, hq.2⟩) := by
      unfold pick
      rw [dif_pos hq]
    rw [show nllSum ((row, l) :: rest) =
        (match pick row l with
         | Except.error e => Except.error e
         | Except.ok v =>
           match nllSum rest with
           | Except.error e => Except.error e
           | Except.ok s => Except.ok (v + s)) from rfl,
      hpick, ih (fun p hp => h p (List.mem_cons_of_mem _ hp))]
    have hlt : l.toNat < row.length := hq.2
    simp [List.get_eq_getElem, List.getElem?_eq_getElem hlt]

lemma nllSum_err : ∀ (pairs : List (List ℚ × ℤ)),
    (∃ q ∈ pairs, ¬(0 ≤ q.2 ∧ q.2.toNat < q.1.length)) →
    nllSum pairs = Except.error () := by
  intro pairs
  induction pairs with
  | nil => rintro ⟨q, hq, _⟩; simp at hq
  | cons q0 rest ih =>
    rintro ⟨q, hq, hbad⟩
    obtain ⟨row, l⟩ := q0
    by_cases hc : 0 ≤ l ∧ l.toNat < row.length
    · have hpick : pick row l = Except.ok (row.get ⟨l.toNat, hc.2⟩) := by
        unfold pick
        rw [dif_pos hc]
      have hmem : q ∈ rest := by
        rcases List.mem_cons.mp hq with h1 | h1
        · exact absurd (h1 ▸ hc) hbad
        · exact h1
      rw [show nllSum ((row, l) :: rest) =
          (match pick row l with
           | Except.error e => Except.error e
           | Except.ok v =>
             match nllSum rest with
             | Except.error e => Except.error e
             | Except.ok s => Except.ok (v + s)) from rfl,
        hpick, ih ⟨q, hmem, hbad⟩]
    · have hpick : pick row l = Except.error () := by
        unfold pick
        rw [dif_neg hc]
      rw [show nllSum ((row, l) :: rest) =
          (match pick row l with
           | Except.error e => Except.error e
           | Except.ok v =>
             match nllSum rest with
             | Except.error e => Except.error e
             | Except.ok s => Except.ok (v + s)) from rfl,
        hpick]

lemma mem_zip_of_mem_right {α β : Type*} : ∀ (as : List α) (bs : List β) (b : β),
    bs.length = as.length → b ∈ bs → ∃ a ∈ as, (a, b) ∈ as.zip bs := by
  intro as
  induction as with
  | nil =>
    intro bs b hlen hb
    cases bs with
    | nil => simp at hb
    | cons b0 bs' => simp at hlen
  | cons a as' ih =>
    intro bs b hlen hb
    cases bs with
    | nil => simp at hb
    | cons b0 bs' =>
      rcases List.mem_cons.mp hb with h1 | h1
      · subst h1
        exact ⟨a, List.mem_cons_self _ _, by simp [List.zip_cons_cons]⟩
      · obtain ⟨a', ha', hz⟩ := ih bs' b (by simpa using hlen) h1
        exact ⟨a', List.mem_cons_of_mem _ ha',
          by rw [List.zip_cons_cons]; exact List.mem_cons_of_mem _ hz⟩

/-- C8: the loss computation on per-sample log-probability rows (all of
width `C`) and integer labels returns the negative mean of the
log-probabilities assigned to the true classes, and fails whenever some
label lies outside `[0, C)`. -/
theorem C8_nll_loss (C : ℕ) (logps : List (List ℚ)) (labels : List ℤ)
    (hlen : labels.length = logps.length)
    (hrows : ∀ row ∈ logps, row.length = C) :
    ((∀ l ∈ labels, 0 ≤ l ∧ l < (C : ℤ)) →
      nllLoss logps labels =
        Except.ok (-(((logps.zip labels).map (fun rl => rl.1.getD rl.2.toNat 0)).sum
          / (logps.length : ℚ)))) ∧
    ((∃ l ∈ labels, ¬(0 ≤ l ∧ l < (C : ℤ))) →
      nllLoss logps labels = Except.error ()) := by
  constructor
  · intro hin
    have hall : ∀ q ∈ logps.zip labels, 0 ≤ q.2 ∧ q.2.toNat < q.1.length := by
      intro q hq
      obtain ⟨row, l⟩ := q
      have hm := List.of_mem_zip hq
      have h1 := hin l hm.2
      refine ⟨h1.1, ?_⟩
      rw [hrows row hm.1]
      omega
    unfold nllLoss
    rw [nllSum_ok _ hall]
  · rintro ⟨l, hl, hbad⟩
    obtain ⟨row, hrow, hz⟩ := mem_zip_of_mem_right logps labels l hlen hl
    unfold nllLoss
    rw [nllSum_err _ ⟨(row, l), hz, ?_⟩]
    have hC := hrows row hrow
    intro hc
    apply hbad
    refine ⟨hc.1, ?_⟩
    rw [hC] at hc
    omega

/-- Witness for `C8_nll_loss` on a concrete 2-sample, 2-class batch:
the loss of log-probability rows `[-1,-2]`, `[-3,-4]` with labels
`[0, 1]` is `-((-1) + (-4))/2 = 5/2`. -/
theorem C8_nll_loss_witness : nllLoss [[-1, -2], [-3, -4]] [0, 1] = Except.ok (5 / 2) := by
  have hrows : ∀ row ∈ [[(-1 : ℚ), -2], [-3, -4]], row.length = 2 := by
    intro row hrow
    rcases List.mem_cons.mp hrow with h | h
    · rw [h]; rfl
    · rcases List.mem_cons.mp h with h2 | h2
      · rw [h2]; rfl
      · simp at h2
  have h := (C8_nll_loss 2 [[-1, -2], [-3, -4]] [0, 1] rfl hrows).1 (by decide)
  rw [h]
  norm_num [List.zip_cons_cons]
